import Mathlib

/-!
Shallow embedding of the daisy-engine Room implementation
(packages/client/src/lib/room.ts: the client-side Room class and the
server-side Room class shipped in the same snapshot).

Conventions of the embedding:
* a Node Buffer is a list of byte values (each element below 256 by
  construction of every encoder in this file);
* a JS string is the list of its UTF-16 code units;
* JS numbers that the tick loop manipulates are rationals;
* a JS function that can throw returns an Option, with none for a throw.
-/

namespace Daisy

/-- A JS string, represented as its sequence of UTF-16 code units. -/
abbrev CodeUnits := List Nat

/-!
Modelled from the spec: the numeric values of the shared protocol enums
ClientProtocol and ServerProtocol live in the daisy-engine common
package, which is not under src; the spec fixes only the set of frame
kinds (Ping, UserPacket, RoomInfo, ClientId, Error, CloseReason), so
concrete distinct byte values are chosen here.  No claim depends on the
chosen values, only on the tags being fixed distinct bytes.
-/

def ServerProtocol.Ping : Nat := 0

def ServerProtocol.UserPacket : Nat := 1

def ServerProtocol.RoomInfo : Nat := 2

def ServerProtocol.ClientId : Nat := 3

def ServerProtocol.Error : Nat := 4

def ServerProtocol.CloseReason : Nat := 5

def ClientProtocol.Ping : Nat := 0

def ClientProtocol.UserPacket : Nat := 1

/-- Buffer.readUInt8: one byte at offset i, throwing (none) past the end. -/
def readUInt8 (b : List Nat) (i : Nat) : Option Nat := b[i]?

/-- Buffer.readUInt16LE: two little-endian bytes at offset i, throwing
(none) when fewer than two bytes remain. -/
def readUInt16LE (b : List Nat) (i : Nat) : Option Nat :=
  match b[i]?, b[i + 1]? with
  | some lo, some hi => some (lo + 256 * hi)
  | _, _ => none

/-- Buffer.readUInt32LE: four little-endian bytes at offset i. -/
def readUInt32LE (b : List Nat) (i : Nat) : Option Nat :=
  match b[i]?, b[i + 1]?, b[i + 2]?, b[i + 3]? with
  | some b0, some b1, some b2, some b3 =>
      some (b0 + 256 * b1 + 65536 * b2 + 16777216 * b3)
  | _, _, _, _ => none

/-- The bytes Buffer.write(s, off, utf16le) appends: each UTF-16 code
unit becomes two little-endian bytes. -/
def utf16leBytes : CodeUnits → List Nat
  | [] => []
  | c :: cs => (c % 256) :: (c / 256 % 256) :: utf16leBytes cs

/-- Buffer.toString(utf16le, ...): consecutive byte pairs become code
units; an odd trailing byte is dropped. -/
def utf16leUnits : List Nat → CodeUnits
  | lo :: hi :: rest => (lo % 256 + 256 * (hi % 256)) :: utf16leUnits rest
  | _ => []

/-- buf.toString(utf16le, start, start + len2) with Node clamping at the
end of the buffer; len2 is the byte count of the slice. -/
def bufToStringUtf16 (b : List Nat) (start len2 : Nat) : CodeUnits :=
  utf16leUnits ((b.drop start).take len2)

/-- The event field of a UserPacket: a numeric id (event tag 0) or a
string id (event tag 1). -/
inductive UserEvent where
  | num (id : Nat)
  | str (s : CodeUnits)
deriving DecidableEq

/-- The payload field of a UserPacket: raw bytes (payload tag 0) or a
string (payload tag 1). -/
inductive UserPayload where
  | bytes (data : List Nat)
  | text (s : CodeUnits)
deriving DecidableEq

/-- Event part written by Room._packMessage: tag byte 0 plus a uint8 id
for a numeric event (Buffer.writeUInt8 throws outside 0-255, modelled as
none), or tag byte 1, a uint16 little-endian code-unit count and the
UTF-16 bytes for a string event (Buffer.writeUInt16LE throws outside
0-65535). -/
def eventBytes : UserEvent → Option (List Nat)
  | .num n => if n < 256 then some [0, n] else none
  | .str s =>
      if s.length < 65536 then
        some ([1, s.length % 256, s.length / 256] ++ utf16leBytes s)
      else none

/-- Payload part written by Room._packMessage: tag byte 0 plus the bytes
verbatim for a Buffer payload, or tag byte 1 plus a uint16 little-endian
code-unit count and the UTF-16 bytes for a string payload. -/
def payloadBytes : UserPayload → Option (List Nat)
  | .bytes d => some (0 :: d)
  | .text t =>
      if t.length < 65536 then
        some ([1, t.length % 256, t.length / 256] ++ utf16leBytes t)
      else none

/-- Room._packMessage (client, lines 299-331; the server copy at lines
679-711 is identical apart from which enum supplies the kind byte):
writes the UserPacket kind byte, the tagged event, then the tagged
payload into the scratch buffer and returns the written prefix. -/
def packMessage (kindTag : Nat) (event : UserEvent) (data : UserPayload) :
    Option (List Nat) :=
  if kindTag < 256 then
    (eventBytes event).bind fun eb =>
      (payloadBytes data).map fun pb => kindTag :: (eb ++ pb)
  else none

/-- Outcome of running the incoming-message parsing code on a buffer:
a parsed frame, a silent fall-through of a switch with no matching case
(nothing dispatched, no error), or a thrown exception. -/
inductive ParseOutcome where
  | frame (event : UserEvent) (data : UserPayload)
  | ignored
  | threw
deriving DecidableEq

/-- Room._getUserMessageContent (server, lines 651-672; the client copy
at lines 270-292 reads the tag with bracket indexing, which likewise
lands in the throwing default branch when out of bounds): payload tag 0
takes every remaining byte verbatim, tag 1 reads a length-prefixed
UTF-16 string, any other tag throws Invalid dataType. -/
def parseContent (buf : List Nat) (i : Nat) (event : UserEvent) :
    ParseOutcome :=
  match readUInt8 buf i with
  | some 0 => .frame event (.bytes (buf.drop (i + 1)))
  | some 1 =>
      match readUInt16LE buf (i + 1) with
      | some len => .frame event (.text (bufToStringUtf16 buf (i + 3) (len * 2)))
      | none => .threw
  | _ => .threw

/-- The parsing steps of Room._internalOnUserMessage (server, lines
556-591): event tag 0 reads a one-byte event id, tag 1 reads a
length-prefixed UTF-16 event name, and then the payload is read by
Room._getUserMessageContent; an unknown event tag falls out of the
switch silently. -/
def parseUserMessage (buf : List Nat) (i : Nat) : ParseOutcome :=
  match readUInt8 buf i with
  | some 0 =>
      match readUInt8 buf (i + 1) with
      | some n => parseContent buf (i + 2) (.num n)
      | none => .threw
  | some 1 =>
      match readUInt16LE buf (i + 1) with
      | some len =>
          parseContent buf (i + 3 + len * 2)
            (.str (bufToStringUtf16 buf (i + 3) (len * 2)))
      | none => .threw
  | none => .threw
  | some _ => .ignored

/-- A JS string: fewer than 2^16 code units are writable behind a uint16
length prefix, and every code unit is below 2^16. -/
def ValidUnits (s : CodeUnits) : Prop :=
  s.length < 65536 ∧ ∀ c ∈ s, c < 65536

/-- An event that room.ts can put on the wire: a numeric id in 0-255 or
a JS string. -/
def ValidEvent : UserEvent → Prop
  | .num n => n < 256
  | .str s => ValidUnits s

/-- A payload that room.ts can put on the wire. -/
def ValidPayload : UserPayload → Prop
  | .bytes _ => True
  | .text t => ValidUnits t

theorem utf16leBytes_length (s : CodeUnits) :
    (utf16leBytes s).length = 2 * s.length := by
  induction s with
  | nil => rfl
  | cons c cs ih => simp [utf16leBytes, ih]; omega

theorem utf16leUnits_utf16leBytes (s : CodeUnits)
    (h : ∀ c ∈ s, c < 65536) : utf16leUnits (utf16leBytes s) = s := by
  induction s with
  | nil => rfl
  | cons c cs ih =>
      have hc : c < 65536 := h c (List.mem_cons_self c cs)
      have hrec := ih fun x hx => h x (List.mem_cons_of_mem c hx)
      simp only [utf16leBytes, utf16leUnits, hrec]
      congr 1
      omega

theorem getElem?_append_offset (pre l : List Nat) (k : Nat) :
    (pre ++ l)[pre.length + k]? = l[k]? := by
  rw [List.getElem?_append_right (Nat.le_add_right _ _)]
  congr 1
  omega

theorem drop_append_offset (pre l : List Nat) (k : Nat) :
    (pre ++ l).drop (pre.length + k) = l.drop k :=
  List.drop_append k

theorem parseContent_append (pre pb : List Nat) (p : UserPayload)
    (e : UserEvent) (hp : ValidPayload p) (hpb : payloadBytes p = some pb) :
    parseContent (pre ++ pb) pre.length e = .frame e p := by
  cases p with
  | bytes d =>
      simp only [payloadBytes, Option.some.injEq] at hpb
      subst hpb
      have h0 : (pre ++ 0 :: d)[pre.length]? = some 0 := by
        have := getElem?_append_offset pre (0 :: d) 0
        simp only [Nat.add_zero] at this
        simp [this]
      have hdrop : (pre ++ 0 :: d).drop (pre.length + 1) = d := by
        have h := drop_append_offset pre (0 :: d) 1
        rw [h]
        rfl
      simp [parseContent, readUInt8, h0, hdrop]
  | text t =>
      have hl : t.length < 65536 := hp.1
      simp only [payloadBytes, if_pos hl, Option.some.injEq] at hpb
      subst hpb
      set B := utf16leBytes t with hB
      set l : List Nat := [1, t.length % 256, t.length / 256] ++ B with hldef
      have h0 : (pre ++ l)[pre.length]? = some 1 := by
        have h := getElem?_append_offset pre l 0
        rw [Nat.add_zero] at h
        rw [h, hldef]
        rfl
      have h1 : (pre ++ l)[pre.length + 1]? = some (t.length % 256) := by
        simpa [hldef] using getElem?_append_offset pre l 1
      have h2 : (pre ++ l)[pre.length + 1 + 1]? = some (t.length / 256) := by
        have := getElem?_append_offset pre l 2
        simpa [hldef, Nat.add_assoc] using this
      have hread : readUInt16LE (pre ++ l) (pre.length + 1) = some t.length := by
        simp only [readUInt16LE, h1, h2]
        congr 1
        omega
      have hdrop : (pre ++ l).drop (pre.length + 3) = B := by
        have h := drop_append_offset pre l 3
        rw [h, hldef]
        simp
      have htake : ((pre ++ l).drop (pre.length + 3)).take (t.length * 2) = B := by
        rw [hdrop]
        exact List.take_of_length_le (by rw [hB, utf16leBytes_length]; omega)
      simp only [parseContent, readUInt8, h0, hread, bufToStringUtf16]
      rw [htake, hB, utf16leUnits_utf16leBytes t hp.2]

theorem parseUserMessage_packMessage (kindTag : Nat) (e : UserEvent)
    (p : UserPayload) (he : ValidEvent e) (hp : ValidPayload p)
    (bs : List Nat) (hbs : packMessage kindTag e p = some bs) :
    parseUserMessage bs 1 = .frame e p := by
  by_cases hk : kindTag < 256
  · cases e with
    | num n =>
        have hn : n < 256 := he
        simp only [packMessage, if_pos hk, eventBytes, if_pos hn] at hbs
        obtain ⟨pb, hpb, hbs⟩ := Option.map_eq_some'.mp hbs
        subst hbs
        have hshape : kindTag :: ([0, n] ++ pb) = [kindTag, 0, n] ++ pb := rfl
        rw [hshape]
        have h1 : ([kindTag, 0, n] ++ pb)[1]? = some 0 := by simp
        have h2 : ([kindTag, 0, n] ++ pb)[1 + 1]? = some n := by simp
        simp only [parseUserMessage, readUInt8, h1, h2]
        have h3 : (1 : Nat) + 1 + 1 = ([kindTag, 0, n] : List Nat).length := rfl
        rw [h3]
        exact parseContent_append _ _ _ _ hp hpb
    | str s =>
        have hs : s.length < 65536 := he.1
        simp only [packMessage, if_pos hk, eventBytes, if_pos hs] at hbs
        obtain ⟨pb, hpb, hbs⟩ := Option.map_eq_some'.mp hbs
        subst hbs
        set B := utf16leBytes s with hB
        have hshape :
            kindTag :: (([1, s.length % 256, s.length / 256] ++ B) ++ pb)
              = (kindTag :: 1 :: (s.length % 256) :: (s.length / 256) :: B)
                  ++ pb := by
          simp
        rw [hshape]
        set pre : List Nat :=
          kindTag :: 1 :: (s.length % 256) :: (s.length / 256) :: B with hpre
        have h1 : (pre ++ pb)[1]? = some 1 := by simp [hpre]
        have hread : readUInt16LE (pre ++ pb) (1 + 1) = some s.length := by
          have hlo : (pre ++ pb)[(2 : Nat)]? = some (s.length % 256) := by
            simp [hpre]
          have hhi : (pre ++ pb)[(3 : Nat)]? = some (s.length / 256) := by
            simp [hpre]
          unfold readUInt16LE
          norm_num [hlo, hhi]
          omega
        have hdroppre : (pre ++ pb).drop (1 + 3) = B ++ pb := by
          simp [hpre]
        have htake : ((pre ++ pb).drop (1 + 3)).take (s.length * 2) = B := by
          rw [hdroppre]
          exact List.take_left' (by rw [hB, utf16leBytes_length]; omega)
        have hlenB : B.length = 2 * s.length := by
          rw [hB]; exact utf16leBytes_length s
        have hlenpre : pre.length = 1 + 3 + s.length * 2 := by
          rw [hpre]
          simp only [List.length_cons, hlenB]
          omega
        simp only [parseUserMessage, readUInt8, h1, hread, bufToStringUtf16,
          htake, hB, utf16leUnits_utf16leBytes s he.2]
        rw [show (1 : Nat) + 3 + s.length * 2 = pre.length from hlenpre.symm]
        exact parseContent_append _ _ _ _ hp hpb
  · simp [packMessage, if_neg hk] at hbs

theorem packMessage_isSome (kindTag : Nat) (e : UserEvent) (p : UserPayload)
    (hk : kindTag < 256) (he : ValidEvent e) (hp : ValidPayload p) :
    ∃ bs, packMessage kindTag e p = some bs := by
  have heb : ∃ eb, eventBytes e = some eb := by
    cases e with
    | num n =>
        have hn : n < 256 := he
        exact ⟨[0, n], by simp [eventBytes, hn]⟩
    | str s =>
        have hs : s.length < 65536 := he.1
        exact ⟨[1, s.length % 256, s.length / 256] ++ utf16leBytes s,
          by simp [eventBytes, hs]⟩
  have hpb : ∃ pb, payloadBytes p = some pb := by
    cases p with
    | bytes d => exact ⟨0 :: d, rfl⟩
    | text t =>
        have ht : t.length < 65536 := hp.1
        exact ⟨[1, t.length % 256, t.length / 256] ++ utf16leBytes t,
          by simp [payloadBytes, ht]⟩
  obtain ⟨eb, heb⟩ := heb
  obtain ⟨pb, hpb⟩ := hpb
  exact ⟨kindTag :: (eb ++ pb), by simp [packMessage, hk, heb, hpb]⟩

/-- C1: encoding any UserPacket frame whose event is a numeric id in
0-255 or a string and whose payload is raw bytes or a string, then
decoding the produced bytes with the incoming-user-message parser,
recovers the same event tag, event value, payload tag and payload value
(the ParseOutcome.frame constructor carries exactly those four fields);
with text payloads this holds for every sequence of UTF-16 code units,
non-ASCII included. -/
theorem C1_userPacket_round_trip (event : UserEvent) (data : UserPayload)
    (he : ValidEvent event) (hp : ValidPayload data) :
    ∃ bs, packMessage ClientProtocol.UserPacket event data = some bs ∧
      parseUserMessage bs 1 = ParseOutcome.frame event data := by
  obtain ⟨bs, hbs⟩ :=
    packMessage_isSome ClientProtocol.UserPacket event data (by decide) he hp
  exact ⟨bs, hbs, parseUserMessage_packMessage _ _ _ he hp bs hbs⟩

/-- C1 witness: numeric event 5 with text payload "hi" (code units 104,
105) round-trips to event tag 0, event id 5, payload tag 1, payload
"hi". -/
theorem C1_userPacket_round_trip_witness :
    ∃ bs, packMessage ClientProtocol.UserPacket (UserEvent.num 5)
        (UserPayload.text [104, 105]) = some bs ∧
      parseUserMessage bs 1 =
        ParseOutcome.frame (UserEvent.num 5) (UserPayload.text [104, 105]) :=
  C1_userPacket_round_trip (UserEvent.num 5) (UserPayload.text [104, 105])
    (by norm_num [ValidEvent])
    (show ValidUnits [104, 105] from ⟨by norm_num, by decide⟩)

/-- Lifecycle of the connect promise created in Room._internalConnect.
Modelled from the spec: the promise object itself belongs to the JS
runtime, outside src; per the spec the connect outcome is resolved
exactly once, so resolve and reject act only on a pending promise. -/
inductive PromiseState where
  | pending
  | resolvedOk
  | rejected (msg : CodeUnits)
deriving DecidableEq

/-- The body of the connect-result callback installed by
Room._internalConnect (lines 103-107): reject with the error when one is
given, otherwise resolve; both are no-ops on a settled promise. -/
def settlePromise (p : PromiseState) (err : Option CodeUnits) : PromiseState :=
  match p with
  | .pending =>
      match err with
      | none => .resolvedOk
      | some m => .rejected m
  | s => s

/-- Observable callback invocations performed by the client Room, in
program order. -/
inductive CEffect where
  | connectCb (err : Option CodeUnits)
  | errorObservers (msg : CodeUnits)
  | closeObservers
  | dispatch (handler : Nat) (data : UserPayload)
  | pingScheduled
deriving DecidableEq

/-- True exactly on an invocation of the connect-result callback. -/
def isConnectCb : CEffect → Bool
  | .connectCb _ => true
  | _ => false

/-- JS Map.set on the client handler table (Room.onMessage, client,
lines 76-81): Map keys compare with SameValueZero, so the number n and
the string of its decimal digits are distinct keys; setting an existing
key replaces its value in place, a new key is appended. -/
def mapSet (t : List (UserEvent × Nat)) (k : UserEvent) (v : Nat) :
    List (UserEvent × Nat) :=
  if t.any fun p => p.1 == k then
    t.map fun p => if p.1 == k then (k, v) else p
  else t ++ [(k, v)]

/-- JS Map.get on the client handler table. -/
def mapGet (t : List (UserEvent × Nat)) (k : UserEvent) : Option Nat :=
  (t.find? fun p => p.1 == k).map Prod.snd

/-- State of the client-side Room (fields of the client Room class that
the claims observe).  Defaults follow the field initializers; the
connect-result callback and the promise are installed by
_internalConnect.  lastPingTimestamp starts at Number.MAX_VALUE in the
source; its initial value is irrelevant to every claim, so 0 stands in. -/
structure ClientRoom where
  id : CodeUnits := []
  closeReason : Option CodeUnits := none
  localClientId : Int := -1
  latencySamples : List ℚ := []
  latencySampleSize : Nat := 10
  lastPingTimestamp : ℚ := 0
  pingTimerSet : Bool := false
  connectResultCallback : Bool := false
  promise : PromiseState := PromiseState.pending
  handlers : List (UserEvent × Nat) := []
deriving DecidableEq

/-- The Ping branch body of Room._onMessage (client, lines 147-155):
push the new RTT sample, then shift out the oldest sample when the
window holds more than latencySampleSize entries. -/
def pushSample (cap : Nat) (samples : List ℚ) (s : ℚ) : List ℚ :=
  let w := samples ++ [s]
  if cap < w.length then w.tail else w

/-- Room._getUserMessageContent (client, lines 270-292): the tag is read
with bracket indexing, so past the end of the buffer it is undefined and
falls into the throwing default branch, exactly like an unknown tag. -/
def clientGetUserMessageContent (buf : List Nat) (i : Nat) :
    Option UserPayload :=
  match buf[i]? with
  | some 0 => some (.bytes (buf.drop (i + 1)))
  | some 1 =>
      match readUInt16LE buf (i + 1) with
      | none => none
      | some dataLen => some (.text (bufToStringUtf16 buf (i + 3) (dataLen * 2)))
  | _ => none

/-- Room._onUserMessage (client, lines 231-264): the event tag is read
with bracket indexing; on an unknown tag (or undefined, past the end)
the switch falls through silently.  The optional chaining on the handler
lookup means the payload is only parsed when a handler is registered. -/
def clientOnUserMessage (st : ClientRoom) (buf : List Nat) :
    Option (ClientRoom × List CEffect) :=
  match buf[1]? with
  | some 0 =>
      match readUInt8 buf 2 with
      | none => none
      | some n =>
          match mapGet st.handlers (.num n) with
          | none => some (st, [])
          | some h =>
              match clientGetUserMessageContent buf 3 with
              | none => none
              | some p => some (st, [CEffect.dispatch h p])
  | some 1 =>
      match readUInt16LE buf 2 with
      | none => none
      | some eventLen =>
          match mapGet st.handlers (.str (bufToStringUtf16 buf 4 (eventLen * 2))) with
          | none => some (st, [])
          | some h =>
              match clientGetUserMessageContent buf (4 + eventLen * 2) with
              | none => none
              | some p => some (st, [CEffect.dispatch h p])
  | _ => some (st, [])

/-- The switch body of Room._onMessage (client, lines 146-228), branch
by packet kind; the default case of the switch is the final else. -/
def clientOnMessageKind (now : ℚ) (st : ClientRoom) (pid : Nat)
    (buf : List Nat) : Option (ClientRoom × List CEffect) :=
  if pid = ServerProtocol.Ping then
      some ({ st with
                latencySamples := pushSample st.latencySampleSize
                  st.latencySamples (now - st.lastPingTimestamp),
                pingTimerSet := true },
            [CEffect.pingScheduled])
    else if pid = ServerProtocol.UserPacket then
      clientOnUserMessage st buf
    else if pid = ServerProtocol.RoomInfo then
      match readUInt16LE buf 1 with
      | none => none
      | some idLen =>
          some ({ st with
                    id := bufToStringUtf16 buf 3 (idLen * 2),
                    promise := if st.connectResultCallback then
                        settlePromise st.promise none
                      else st.promise },
                if st.connectResultCallback then [CEffect.connectCb none]
                else [])
    else if pid = ServerProtocol.ClientId then
      match readUInt32LE buf 1 with
      | none => none
      | some v => some ({ st with localClientId := (v : Int) }, [])
    else if pid = ServerProtocol.Error then
      match readUInt16LE buf 1 with
      | none => none
      | some errorLen =>
          some ({ st with
                    promise := if st.connectResultCallback then
                        settlePromise st.promise
                          (some (bufToStringUtf16 buf 3 (errorLen * 2)))
                      else st.promise },
                (if st.connectResultCallback then
                    [CEffect.connectCb (some (bufToStringUtf16 buf 3 (errorLen * 2)))]
                  else [])
                  ++ [CEffect.errorObservers (bufToStringUtf16 buf 3 (errorLen * 2))])
    else if pid = ServerProtocol.CloseReason then
      match readUInt16LE buf 1 with
      | none => none
      | some reasonLen =>
          some ({ st with
                    promise := if st.connectResultCallback then
                        settlePromise st.promise
                          (some (bufToStringUtf16 buf 3 (reasonLen * 2)))
                      else st.promise,
                    closeReason := some (bufToStringUtf16 buf 3 (reasonLen * 2)) },
                if st.connectResultCallback then
                  [CEffect.connectCb (some (bufToStringUtf16 buf 3 (reasonLen * 2)))]
                else [])
    else
      some (st, [])

/-- Room._onMessage (client, lines 141-229).  now is the value of
Date.now() at this wake; the returned list records the callback
invocations the taken branch performs, in program order; none models a
thrown exception (an out-of-range Buffer read).  The packet id is read
with bracket indexing, so an empty buffer gives undefined and lands in
the silent default branch, like an unknown kind tag. -/
def clientOnMessage (now : ℚ) (st : ClientRoom) (buf : List Nat) :
    Option (ClientRoom × List CEffect) :=
  match buf[0]? with
  | none => some (st, [])
  | some pid => clientOnMessageKind now st pid buf

/-- Room._onClose (client, lines 133-139): clears the ping timer and
fires the registered close callbacks; it does not touch the
connect-result callback, the promise, or any other field. -/
def clientOnClose (st : ClientRoom) : ClientRoom × List CEffect :=
  ({ st with pingTimerSet := false }, [CEffect.closeObservers])

theorem pushSample_step (cap : Nat) (es : List ℚ) (e : ℚ) :
    pushSample cap (es.drop (es.length - cap)) e
      = (es ++ [e]).drop (es.length + 1 - cap) := by
  have hlen : (es.drop (es.length - cap)).length = min es.length cap := by
    rw [List.length_drop]; omega
  unfold pushSample
  by_cases hcl : cap ≤ es.length
  · have hfull : cap < (es.drop (es.length - cap) ++ [e]).length := by
      rw [List.length_append, hlen]
      simp only [List.length_singleton]
      omega
    rw [if_pos hfull]
    by_cases hc0 : cap = 0
    · subst hc0
      rw [Nat.sub_zero, Nat.sub_zero, List.drop_length]
      rw [List.drop_eq_nil_of_le (by simp)]
      rfl
    · have h1 : 1 ≤ (es.drop (es.length - cap)).length := by omega
      have lhs : (es.drop (es.length - cap) ++ [e]).tail
          = es.drop (es.length - cap + 1) ++ [e] := by
        rw [← List.drop_one, List.drop_append_of_le_length h1,
          List.drop_drop]
      have rhs : (es ++ [e]).drop (es.length + 1 - cap)
          = es.drop (es.length - cap + 1) ++ [e] := by
        rw [List.drop_append_of_le_length (by omega)]
        congr 2
        omega
      rw [lhs, rhs]
  · have hnot : ¬ cap < (es.drop (es.length - cap) ++ [e]).length := by
      rw [List.length_append, hlen]
      simp only [List.length_singleton]
      omega
    rw [if_neg hnot]
    have h0 : es.length - cap = 0 := by omega
    have h0' : es.length + 1 - cap = 0 := by omega
    rw [h0, h0']
    simp

theorem pushSample_foldl (cap : Nat) (es : List ℚ) :
    es.foldl (pushSample cap) [] = es.drop (es.length - cap) := by
  induction es using List.reverseRecOn with
  | nil => simp
  | append_singleton es e ih =>
      rw [List.foldl_append, List.foldl_cons, List.foldl_nil, ih,
        pushSample_step]
      congr 1
      simp

/-- C6: processing N ping replies from an empty window with capacity
latencySampleSize leaves, once N exceeds the capacity, a window of
length exactly the capacity holding exactly the last capacity samples in
arrival order.  (The general fold equation pushSample_foldl above gives,
for every sample sequence, a window of length min N capacity, so the
window never exceeds its capacity after any operation.) -/
theorem C6_latency_window (cap : Nat) (es : List ℚ) (h : cap < es.length) :
    (es.foldl (pushSample cap) []).length = cap
    ∧ es.foldl (pushSample cap) [] = es.drop (es.length - cap) := by
  have heq := pushSample_foldl cap es
  refine ⟨?_, heq⟩
  rw [heq, List.length_drop]
  omega

/-- C6 witness: capacity 2, samples 1, 2, 3: the window ends at exactly
the last two samples, in order. -/
theorem C6_latency_window_witness :
    (([1, 2, 3] : List ℚ).foldl (pushSample 2) []).length = 2
    ∧ ([1, 2, 3] : List ℚ).foldl (pushSample 2) []
        = ([1, 2, 3] : List ℚ).drop (([1, 2, 3] : List ℚ).length - 2) :=
  C6_latency_window 2 [1, 2, 3] (by norm_num)

/-- C10 counterexample: a transport close delivered while the connect
is pending (callback installed, promise unsettled) does not invoke the
connect-result callback and does not settle the outcome: the only
effect is firing the close observers, and the promise stays pending. -/
theorem C10_premature_close_counterexample :
    clientOnClose { connectResultCallback := true }
      = ({ connectResultCallback := true }, [CEffect.closeObservers])
    ∧ (clientOnClose { connectResultCallback := true }).1.promise
        = PromiseState.pending := ⟨rfl, rfl⟩

/-- C10 amended: a transport close only clears the ping timeout and
fires the close observers; it never invokes the connect-result callback
and leaves the connect outcome exactly as it was, so a close arriving
before any RoomInfo, Error or CloseReason frame leaves the connect
attempt unresolved. -/
theorem C10_close_keeps_connect_pending (st : ClientRoom) :
    (clientOnClose st).1.promise = st.promise
    ∧ (clientOnClose st).1.connectResultCallback = st.connectResultCallback
    ∧ ((clientOnClose st).2.all fun e => !isConnectCb e) = true
    ∧ CEffect.closeObservers ∈ (clientOnClose st).2 := by
  refine ⟨rfl, rfl, rfl, ?_⟩
  simp [clientOnClose]

/-- C8 counterexample: a UserPacket whose event tag byte is 2 (outside
the defined set 0 and 1) is silently ignored by the decoder: the message
handler code returns normally with no error surfaced, no state change
and no dispatch. -/
theorem C8_unknown_tag_counterexample :
    clientOnMessage 0 {} [ServerProtocol.UserPacket, 2] = some ({}, []) := rfl

/-- C8 amended: only the payload tag is range-checked at decode time
(outside 0 and 1, an Invalid dataType error is thrown); an unknown kind
tag byte and an unknown UserPacket event tag byte are silently ignored:
the switch falls through with no handler invoked and no error raised. -/
theorem C8_tag_handling (now : ℚ) (st : ClientRoom)
    (bufK bufE bufP : List Nat) (pid t d i : Nat)
    (hk : bufK[0]? = some pid)
    (hku : pid ∉ [ServerProtocol.Ping, ServerProtocol.UserPacket,
        ServerProtocol.RoomInfo, ServerProtocol.ClientId,
        ServerProtocol.Error, ServerProtocol.CloseReason])
    (he : bufE[1]? = some t) (ht0 : t ≠ 0) (ht1 : t ≠ 1)
    (hd : bufP[i]? = some d) (hd0 : d ≠ 0) (hd1 : d ≠ 1) :
    clientOnMessage now st bufK = some (st, [])
    ∧ clientOnUserMessage st bufE = some (st, [])
    ∧ clientGetUserMessageContent bufP i = none := by
  simp only [List.mem_cons, List.not_mem_nil, or_false, not_or] at hku
  obtain ⟨h1, h2, h3, h4, h5, h6⟩ := hku
  refine ⟨?_, ?_, ?_⟩
  · unfold clientOnMessage
    rw [hk]
    show clientOnMessageKind now st pid bufK = some (st, [])
    unfold clientOnMessageKind
    rw [if_neg h1, if_neg h2, if_neg h3, if_neg h4, if_neg h5, if_neg h6]
  · unfold clientOnUserMessage
    rw [he]
    rcases t with _ | t1
    · exact absurd rfl ht0
    rcases t1 with _ | t2
    · exact absurd rfl ht1
    rfl
  · unfold clientGetUserMessageContent
    rw [hd]
    rcases d with _ | d1
    · exact absurd rfl hd0
    rcases d1 with _ | d2
    · exact absurd rfl hd1
    rfl

/-- C8 witness: kind tag 6, event tag 2 and payload tag 2 on concrete
buffers: the first two are silently ignored, the third throws. -/
theorem C8_tag_handling_witness :
    clientOnMessage 0 {} [6] = some ({}, [])
    ∧ clientOnUserMessage {} [1, 2] = some ({}, [])
    ∧ clientGetUserMessageContent [2] 0 = none :=
  C8_tag_handling 0 {} [6] [1, 2] [2] 6 2 2 0 (by decide) (by decide)
    (by decide) (by decide) (by decide) (by decide) (by decide) (by decide)

theorem settlePromise_of_ne_pending (p : PromiseState) (err : Option CodeUnits)
    (h : p ≠ PromiseState.pending) : settlePromise p err = p := by
  cases p with
  | pending => exact absurd rfl h
  | resolvedOk => rfl
  | rejected m => rfl

theorem clientOnUserMessage_state (st : ClientRoom) (buf : List Nat)
    (st' : ClientRoom) (effs : List CEffect)
    (h : clientOnUserMessage st buf = some (st', effs)) : st' = st := by
  unfold clientOnUserMessage at h
  repeat' split at h
  all_goals
    first
      | (simp only [Option.some.injEq, Prod.mk.injEq] at h; exact h.1.symm)
      | exact Option.noConfusion h

/-- C3 counterexample: with the connect callback installed and the
promise pending, a RoomInfo frame resolves the connect (first
conjunct); the Error frame processed right after it, on the state the
RoomInfo left behind, invokes the connect-result callback again (second
conjunct): the callback is never cleared, so a control frame received
after the first resolution still invokes it, contrary to the claim. -/
theorem C3_reresolution_counterexample :
    (clientOnMessage 0 { connectResultCallback := true } [2, 0, 0]).map
        (fun r => (r.1.promise, r.2))
      = some (PromiseState.resolvedOk, [CEffect.connectCb none])
    ∧ ((clientOnMessage 0 { connectResultCallback := true } [2, 0, 0]).bind
        fun r1 => (clientOnMessage 0 r1.1 [4, 0, 0]).map fun r2 => r2.2)
      = some [CEffect.connectCb (some []), CEffect.errorObservers []] :=
  ⟨rfl, rfl⟩

/-- C3 amended: the connect outcome (the promise) is settled exactly
once, by the first RoomInfo (success), Error (failure with the error
text) or CloseReason (failure with the reason text) frame that arrives
while it is pending; once settled it never changes.  However the room
never clears the connect-result callback, so every later RoomInfo,
Error or CloseReason frame invokes the callback again (the settled
promise ignores the call); such frames also update visible state
(closeReason) and fire the error observers. -/
theorem C3_connect_resolution (now : ℚ) (st : ClientRoom) (buf : List Nat)
    (st' : ClientRoom) (effs : List CEffect)
    (h : clientOnMessage now st buf = some (st', effs)) :
    st'.connectResultCallback = st.connectResultCallback
    ∧ (st.promise ≠ PromiseState.pending → st'.promise = st.promise)
    ∧ (st.connectResultCallback = true → st.promise = PromiseState.pending →
        (buf[0]? = some ServerProtocol.RoomInfo →
            st'.promise = PromiseState.resolvedOk
            ∧ CEffect.connectCb none ∈ effs)
        ∧ (buf[0]? = some ServerProtocol.Error →
            ∃ m, st'.promise = PromiseState.rejected m
              ∧ CEffect.connectCb (some m) ∈ effs
              ∧ CEffect.errorObservers m ∈ effs)
        ∧ (buf[0]? = some ServerProtocol.CloseReason →
            ∃ m, st'.promise = PromiseState.rejected m
              ∧ CEffect.connectCb (some m) ∈ effs
              ∧ st'.closeReason = some m))
    ∧ (st.connectResultCallback = true →
        buf[0]? = some ServerProtocol.Error →
        ∃ m, CEffect.connectCb (some m) ∈ effs) := by
  unfold clientOnMessage at h
  rcases heq : buf[0]? with _ | pid
  · rw [heq] at h
    simp only [Option.some.injEq, Prod.mk.injEq] at h
    obtain ⟨rfl, rfl⟩ := h
    refine ⟨rfl, fun _ => rfl,
      fun hcb hp => ⟨fun hk => ?_, fun hk => ?_, fun hk => ?_⟩,
      fun hcb hk => ?_⟩
    all_goals exact Option.noConfusion hk
  · rw [heq] at h
    have h2 : clientOnMessageKind now st pid buf = some (st', effs) := h
    clear h
    unfold clientOnMessageKind at h2
    by_cases hP : pid = ServerProtocol.Ping
    · rw [if_pos hP] at h2
      simp only [Option.some.injEq, Prod.mk.injEq] at h2
      obtain ⟨rfl, rfl⟩ := h2
      subst hP
      refine ⟨rfl, fun _ => rfl,
        fun hcb hp => ⟨fun hk => ?_, fun hk => ?_, fun hk => ?_⟩,
        fun hcb hk => ?_⟩
      all_goals exact absurd hk (by decide)
    rw [if_neg hP] at h2
    by_cases hU : pid = ServerProtocol.UserPacket
    · rw [if_pos hU] at h2
      have hst := clientOnUserMessage_state st buf st' effs h2
      subst hst
      subst hU
      refine ⟨rfl, fun _ => rfl,
        fun hcb hp => ⟨fun hk => ?_, fun hk => ?_, fun hk => ?_⟩,
        fun hcb hk => ?_⟩
      all_goals exact absurd hk (by decide)
    rw [if_neg hU] at h2
    by_cases hR : pid = ServerProtocol.RoomInfo
    · rw [if_pos hR] at h2
      subst hR
      rcases hr : readUInt16LE buf 1 with _ | idLen
      · rw [hr] at h2; exact Option.noConfusion h2
      rw [hr] at h2
      simp only [Option.some.injEq, Prod.mk.injEq] at h2
      obtain ⟨rfl, rfl⟩ := h2
      refine ⟨rfl, ?_, ?_, ?_⟩
      · intro hne
        by_cases hcb : st.connectResultCallback <;>
          simp [hcb, settlePromise_of_ne_pending _ _ hne]
      · intro hcb hp
        refine ⟨fun _ => ⟨?_, ?_⟩, fun hk => ?_, fun hk => ?_⟩
        · simp [hcb, hp, settlePromise]
        · simp [hcb]
        · exact absurd hk (by decide)
        · exact absurd hk (by decide)
      · intro hcb hk
        exact absurd hk (by decide)
    rw [if_neg hR] at h2
    by_cases hC : pid = ServerProtocol.ClientId
    · rw [if_pos hC] at h2
      subst hC
      rcases hr : readUInt32LE buf 1 with _ | v
      · rw [hr] at h2; exact Option.noConfusion h2
      rw [hr] at h2
      simp only [Option.some.injEq, Prod.mk.injEq] at h2
      obtain ⟨rfl, rfl⟩ := h2
      refine ⟨rfl, fun _ => rfl,
        fun hcb hp => ⟨fun hk => ?_, fun hk => ?_, fun hk => ?_⟩,
        fun hcb hk => ?_⟩
      all_goals exact absurd hk (by decide)
    rw [if_neg hC] at h2
    by_cases hE : pid = ServerProtocol.Error
    · rw [if_pos hE] at h2
      subst hE
      rcases hr : readUInt16LE buf 1 with _ | errorLen
      · rw [hr] at h2; exact Option.noConfusion h2
      rw [hr] at h2
      simp only [Option.some.injEq, Prod.mk.injEq] at h2
      obtain ⟨rfl, rfl⟩ := h2
      refine ⟨rfl, ?_, ?_, ?_⟩
      · intro hne
        by_cases hcb : st.connectResultCallback <;>
          simp [hcb, settlePromise_of_ne_pending _ _ hne]
      · intro hcb hp
        refine ⟨fun hk => ?_, fun _ => ?_, fun hk => ?_⟩
        · exact absurd hk (by decide)
        · exact ⟨bufToStringUtf16 buf 3 (errorLen * 2),
            by simp [hcb, hp, settlePromise], by simp [hcb], by simp [hcb]⟩
        · exact absurd hk (by decide)
      · intro hcb hk
        exact ⟨bufToStringUtf16 buf 3 (errorLen * 2), by simp [hcb]⟩
    rw [if_neg hE] at h2
    by_cases hX : pid = ServerProtocol.CloseReason
    · rw [if_pos hX] at h2
      subst hX
      rcases hr : readUInt16LE buf 1 with _ | reasonLen
      · rw [hr] at h2; exact Option.noConfusion h2
      rw [hr] at h2
      simp only [Option.some.injEq, Prod.mk.injEq] at h2
      obtain ⟨rfl, rfl⟩ := h2
      refine ⟨rfl, ?_, ?_, ?_⟩
      · intro hne
        by_cases hcb : st.connectResultCallback <;>
          simp [hcb, settlePromise_of_ne_pending _ _ hne]
      · intro hcb hp
        refine ⟨fun hk => ?_, fun hk => ?_, fun _ => ?_⟩
        · exact absurd hk (by decide)
        · exact absurd hk (by decide)
        · exact ⟨bufToStringUtf16 buf 3 (reasonLen * 2),
            by simp [hcb, hp, settlePromise], by simp [hcb], by simp⟩
      · intro hcb hk
        exact absurd hk (by decide)
    rw [if_neg hX] at h2
    simp only [Option.some.injEq, Prod.mk.injEq] at h2
    obtain ⟨rfl, rfl⟩ := h2
    refine ⟨rfl, fun _ => rfl,
      fun hcb hp => ⟨fun hk => ?_, fun hk => ?_, fun hk => ?_⟩,
      fun hcb hk => ?_⟩
    · simp only [Option.some.injEq] at hk
      exact absurd hk hR
    · simp only [Option.some.injEq] at hk
      exact absurd hk hE
    · simp only [Option.some.injEq] at hk
      exact absurd hk hX
    · simp only [Option.some.injEq] at hk
      exact absurd hk hE

/-- Concrete pre-state for the C3 witness: connect callback installed,
promise pending. -/
def c3wSt : ClientRoom := { connectResultCallback := true }

/-- Concrete post-state for the C3 witness: the CloseReason frame with
empty reason text rejects the promise and records the close reason. -/
def c3wSt2 : ClientRoom :=
  { closeReason := some [], promise := PromiseState.rejected [],
    connectResultCallback := true }

/-- Concrete effect list for the C3 witness. -/
def c3wEffs : List CEffect := [CEffect.connectCb (some [])]

/-- C3 amended witness: a CloseReason frame processed while the connect
is pending rejects the promise with the (empty) reason text, invokes
the connect callback with it and records the close reason. -/
theorem C3_connect_resolution_witness :
    c3wSt2.connectResultCallback = c3wSt.connectResultCallback
    ∧ (c3wSt.promise ≠ PromiseState.pending → c3wSt2.promise = c3wSt.promise)
    ∧ (c3wSt.connectResultCallback = true →
        c3wSt.promise = PromiseState.pending →
        (([5, 0, 0] : List Nat)[0]? = some ServerProtocol.RoomInfo →
            c3wSt2.promise = PromiseState.resolvedOk
            ∧ CEffect.connectCb none ∈ c3wEffs)
        ∧ (([5, 0, 0] : List Nat)[0]? = some ServerProtocol.Error →
            ∃ m, c3wSt2.promise = PromiseState.rejected m
              ∧ CEffect.connectCb (some m) ∈ c3wEffs
              ∧ CEffect.errorObservers m ∈ c3wEffs)
        ∧ (([5, 0, 0] : List Nat)[0]? = some ServerProtocol.CloseReason →
            ∃ m, c3wSt2.promise = PromiseState.rejected m
              ∧ CEffect.connectCb (some m) ∈ c3wEffs
              ∧ c3wSt2.closeReason = some m))
    ∧ (c3wSt.connectResultCallback = true →
        ([5, 0, 0] : List Nat)[0]? = some ServerProtocol.Error →
        ∃ m, CEffect.connectCb (some m) ∈ c3wEffs) :=
  C3_connect_resolution 0 c3wSt [5, 0, 0] c3wSt2 c3wEffs (by rfl)

/-- Modelled from the spec: the ClientStatus enum lives in
./ClientStatus, which is not under src; spec section 4.3 gives the
server-side lifecycle states Connecting, Joined (the only state
eligible for send/broadcast delivery) and Closed.  Only the
Joined/not-Joined distinction matters to any claim. -/
inductive ClientStatus where
  | connecting
  | joined
  | closed
deriving DecidableEq

/-- Modelled from the spec: NetworkClient lives in ./NetworkClient, not
under src; room.ts uses its process-unique integer id, its status and
its _internalSend transport handle.  A delivery pair (client, bytes)
below stands for one _internalSend call on that client. -/
structure NetworkClient where
  id : Nat
  status : ClientStatus
deriving DecidableEq

/-- Room.send (server, lines 498-505): return without touching the
transport unless the client's status is JOINED, otherwise pack the
message and hand it to client._internalSend.  The result is the list of
(client, bytes) deliveries; none models a thrown exception (the
_packMessage range checks). -/
def roomSend (client : NetworkClient) (event : UserEvent)
    (data : UserPayload) : Option (List (NetworkClient × List Nat)) :=
  if client.status ≠ ClientStatus.joined then some []
  else (packMessage ServerProtocol.UserPacket event data).map
    fun msg => [(client, msg)]

/-- Room._broadcast (server, lines 744-749): iterate the clients map and
deliver msg to every client in JOINED state, skipping the others. -/
def roomBroadcastBytes (clients : List (Nat × NetworkClient))
    (msg : List Nat) : List (NetworkClient × List Nat) :=
  (clients.filter fun q => q.2.status == ClientStatus.joined).map
    fun q => (q.2, msg)

/-- Room.broadcast (server, lines 513-516): pack the message once, then
_broadcast the same bytes. -/
def roomBroadcast (clients : List (Nat × NetworkClient))
    (event : UserEvent) (data : UserPayload) :
    Option (List (NetworkClient × List Nat)) :=
  (packMessage ServerProtocol.UserPacket event data).map
    (roomBroadcastBytes clients)

/-- Room._internalOnClose (server, lines 544-550): delete the departing
session from the clients map first, then invoke onClientLeft.  The
first component is the registry after the handler ran; the second is
the hook invocation: the departing client together with the registry
exactly as the hook observes it. -/
def internalOnClose (clients : List (Nat × NetworkClient))
    (client : NetworkClient) :
    List (Nat × NetworkClient)
      × (NetworkClient × List (Nat × NetworkClient)) :=
  let clients2 := clients.filter fun q => q.1 != client.id
  (clients2, (client, clients2))

/-- C4: when a session's status is not Joined, send returns without
calling the transport (no bytes delivered, no error thrown), and
broadcast skips that session entirely — appending it to the registry
changes nothing about the deliveries — while a Joined session still
receives the broadcast bytes. -/
theorem C4_send_gating (client cJ : NetworkClient) (event : UserEvent)
    (data : UserPayload) (clients : List (Nat × NetworkClient))
    (msg : List Nat) (k kJ : Nat)
    (h : client.status ≠ ClientStatus.joined)
    (hJ : cJ.status = ClientStatus.joined) :
    roomSend client event data = some []
    ∧ roomBroadcastBytes (clients ++ [(k, client)]) msg
        = roomBroadcastBytes clients msg
    ∧ (cJ, msg) ∈ roomBroadcastBytes (clients ++ [(kJ, cJ)]) msg := by
  refine ⟨?_, ?_, ?_⟩
  · unfold roomSend
    rw [if_pos h]
  · unfold roomBroadcastBytes
    rw [List.filter_append]
    have hf : ([(k, client)].filter
        fun q => q.2.status == ClientStatus.joined) = [] := by
      simp [h]
    rw [hf, List.append_nil]
  · unfold roomBroadcastBytes
    rw [List.filter_append]
    have hf : ([(kJ, cJ)].filter
        fun q => q.2.status == ClientStatus.joined) = [(kJ, cJ)] := by
      simp [hJ]
    rw [hf]
    simp

/-- C4 witness: a Connecting session gets nothing from send and is
skipped by broadcast, while a Joined session receives the bytes. -/
theorem C4_send_gating_witness :
    roomSend ⟨2, ClientStatus.connecting⟩ (UserEvent.num 0)
        (UserPayload.bytes []) = some []
    ∧ roomBroadcastBytes
        ([(1, ⟨1, ClientStatus.joined⟩)] ++ [(2, ⟨2, ClientStatus.connecting⟩)])
        [9]
        = roomBroadcastBytes [(1, ⟨1, ClientStatus.joined⟩)] [9]
    ∧ (⟨1, ClientStatus.joined⟩, [9]) ∈ roomBroadcastBytes
        ([] ++ [(1, ⟨1, ClientStatus.joined⟩)]) [9] := by
  have h := C4_send_gating ⟨2, ClientStatus.connecting⟩
    ⟨1, ClientStatus.joined⟩ (UserEvent.num 0) (UserPayload.bytes [])
    [(1, ⟨1, ClientStatus.joined⟩)] [9] 2 1 (by decide) (by decide)
  have h2 := C4_send_gating ⟨2, ClientStatus.connecting⟩
    ⟨1, ClientStatus.joined⟩ (UserEvent.num 0) (UserPayload.bytes [])
    [] [9] 2 1 (by decide) (by decide)
  exact ⟨h.1, h.2.1, h2.2.2⟩

/-- C5: inside the leave hook invoked by _internalOnClose, the departing
session's id is absent from the clients registry: the deletion happens
strictly before onClientLeft runs, and the registry the hook observes is
the post-deletion one (which is also the final registry). -/
theorem C5_remove_before_leave_hook (clients : List (Nat × NetworkClient))
    (client : NetworkClient) :
    ((internalOnClose clients client).2.2.all
        fun q => q.1 != client.id) = true
    ∧ (internalOnClose clients client).2.2
        = (internalOnClose clients client).1 := by
  refine ⟨?_, rfl⟩
  unfold internalOnClose
  simp only [List.all_eq_true, List.mem_filter]
  intro q hq
  exact hq.2

/-- The decimal rendering of a numeric event id: the UTF-16 code units
of the string JS produces when a number is used as a property key. -/
def decimalUnits (n : Nat) : CodeUnits := (Nat.toDigits 10 n).map Char.toNat

/-- The JS property key reached by this._messageHandlers[event] on the
server: property keys are strings, so a numeric event id collapses to
its decimal rendering, while a string event is used verbatim. -/
def toPropKey : UserEvent → CodeUnits
  | .num n => decimalUnits n
  | .str s => s

/-- A JS property-table write (obj[k] = v): replace the value of an
existing key in place, or append a fresh property. -/
def propSet (t : List (CodeUnits × Nat)) (k : CodeUnits) (v : Nat) :
    List (CodeUnits × Nat) :=
  if t.any fun p => p.1 == k then
    t.map fun p => if p.1 == k then (k, v) else p
  else t ++ [(k, v)]

/-- Room.onMessage (server, lines 484-489): after the 0-255 range check
on numeric ids (throwing outside it, modelled as none), the handler is
stored with this._messageHandlers[event] = handler — bracket property
assignment on the Map object, which creates an ordinary JS property
under the stringified key, never a Map entry. -/
def serverRoomOnMessage (t : List (CodeUnits × Nat)) (event : UserEvent)
    (handler : Nat) : Option (List (CodeUnits × Nat)) :=
  match event with
  | .num n => if 255 < n then none else some (propSet t (toPropKey event) handler)
  | .str _ => some (propSet t (toPropKey event) handler)

/-- Room.onMessage (client, lines 76-81): the same 0-255 range check,
then Map.set, whose SameValueZero keys keep the number n and its
decimal string distinct. -/
def clientRoomOnMessage (t : List (UserEvent × Nat)) (event : UserEvent)
    (handler : Nat) : Option (List (UserEvent × Nat)) :=
  match event with
  | .num n => if 255 < n then none else some (mapSet t event handler)
  | .str _ => some (mapSet t event handler)

/-- The handler lookup done by _internalOnUserMessage (server, lines
564 and 582): this._messageHandlers[event], a property read under the
same stringified key. -/
def serverHandlerLookup (t : List (CodeUnits × Nat)) (event : UserEvent) :
    Option Nat :=
  (t.find? fun p => p.1 == toPropKey event).map Prod.snd

/-- C9: evaluation at the failing input.  On the server, registering a
handler for numeric event 5 and then one for the string event "5" (code
unit 53) collapses both onto the JS property key "5": the second
registration replaces the first, and a numeric event 5 now dispatches
the handler registered for the string — while the client-side Map keeps
the two identifiers distinct and still dispatches handler 1 for the
numeric event. -/
theorem C9_handler_collision :
    (serverRoomOnMessage [] (UserEvent.num 5) 1).bind
        (fun t => (serverRoomOnMessage t (UserEvent.str [53]) 2).map
          fun t2 => serverHandlerLookup t2 (UserEvent.num 5))
      = some (some 2)
    ∧ (clientRoomOnMessage [] (UserEvent.num 5) 1).bind
        (fun t => (clientRoomOnMessage t (UserEvent.str [53]) 2).map
          fun t2 => mapGet t2 (UserEvent.num 5))
      = some (some 1) := ⟨rfl, rfl⟩

/-- Tick-loop state of the server Room: the _accumulator and _tickNumber
fields (lines 360-362). -/
structure TickState where
  accumulator : ℚ
  tickNumber : ℕ
deriving DecidableEq

/-- The while loop of Room._tick (server, lines 635-642): while the
accumulator holds at least one step S, first check the stop/disable
flags (returning without rescheduling when set), otherwise run the tick
hook, subtract S and count the tick.  Results: final accumulator, ticks
run, and whether control fell out of the loop to the setImmediate
reschedule on line 644 (false exactly when the stop check returned).
The loop only terminates for a positive step, hence the hS argument;
with S = 0 or negative (a tick rate of Infinity or below zero) the
source loop would spin forever once the accumulator reaches S. -/
def tickBatch (stop : Bool) (S : ℚ) (hS : 0 < S) (acc : ℚ) : ℚ × ℕ × Bool :=
  if h : S ≤ acc then
    if stop then (acc, 0, false)
    else
      let r := tickBatch stop S hS (acc - S)
      (r.1, r.2.1 + 1, r.2.2)
  else (acc, 0, true)
termination_by (⌊acc / S⌋).toNat
decreasing_by
  have h1 : (1 : ℚ) ≤ acc / S := (one_le_div hS).mpr h
  have h2 : (1 : ℤ) ≤ ⌊acc / S⌋ := Int.le_floor.mpr (by exact_mod_cast h1)
  have h3 : (acc - S) / S = acc / S - 1 := by field_simp
  rw [h3, Int.floor_sub_one]
  omega

/-- One wake of Room._tick (server, lines 628-645): clamp the observed
elapsed time to maxAccumulation, add it to the accumulator, then run the
while loop; the stop flag of the loop is the disjunction checked on line
636.  The second component records whether the wake rescheduled itself. -/
def tickWake (stopTicking disableBuiltinTicker : Bool) (S maxAcc : ℚ)
    (hS : 0 < S) (st : TickState) (elapsed : ℚ) : TickState × Bool :=
  let acc := st.accumulator + min maxAcc elapsed
  let r := tickBatch (stopTicking || disableBuiltinTicker) S hS acc
  (⟨r.1, st.tickNumber + r.2.1⟩, r.2.2)

/-- A chain of scheduler wakes of a loop that is never stopped or
disabled; elem i of the list is the raw elapsed time the wake observes.
(With both flags false every wake ends in the setImmediate reschedule,
so the chain never breaks.) -/
def runWakes (S maxAcc : ℚ) (hS : 0 < S) : TickState → List ℚ → TickState
  | st, [] => st
  | st, e :: es =>
      runWakes S maxAcc hS (tickWake false false S maxAcc hS st e).1 es

theorem tickBatch_go (S : ℚ) (hS : 0 < S) :
    ∀ n : ℕ, ∀ acc : ℚ, 0 ≤ acc → (⌊acc / S⌋).toNat = n →
      tickBatch false S hS acc = (acc - S * n, n, true) := by
  intro n
  induction n using Nat.strong_induction_on with
  | _ n ih =>
    intro acc h0 hn
    rw [tickBatch.eq_def]
    split
    · next hge =>
      have h1 : (1 : ℚ) ≤ acc / S := (one_le_div hS).mpr hge
      have h2 : (1 : ℤ) ≤ ⌊acc / S⌋ := Int.le_floor.mpr (by exact_mod_cast h1)
      have hm : (⌊(acc - S) / S⌋).toNat = n - 1 := by
        have h3 : (acc - S) / S = acc / S - 1 := by field_simp
        rw [h3, Int.floor_sub_one]
        omega
      have hn1 : 1 ≤ n := by omega
      have hrec := ih (n - 1) (by omega) (acc - S)
        (by linarith) hm
      simp only [if_neg (by simp : ¬ (false = true))]
      have hnn : n - 1 + 1 = n := by omega
      have hc : ((n - 1 : ℕ) : ℚ) = (n : ℚ) - 1 := by push_cast [hn1]; ring
      rw [hrec, hnn, hc]
      simp only [Prod.mk.injEq, and_true]
      ring
    · next hlt =>
      push_neg at hlt
      have hz : ⌊acc / S⌋ = 0 := by
        rw [Int.floor_eq_zero_iff]
        exact ⟨div_nonneg h0 hS.le, (div_lt_one hS).mpr hlt⟩
      rw [hz] at hn
      simp at hn
      subst hn
      simp

theorem sub_floor_bounds (S a : ℚ) (hS : 0 < S) (h0 : 0 ≤ a) :
    0 ≤ a - S * ((⌊a / S⌋).toNat : ℚ)
    ∧ a - S * ((⌊a / S⌋).toNat : ℚ) < S := by
  have hfl : (0 : ℤ) ≤ ⌊a / S⌋ := Int.floor_nonneg.mpr (div_nonneg h0 hS.le)
  have hcast : (((⌊a / S⌋).toNat : ℕ) : ℚ) = ((⌊a / S⌋ : ℤ) : ℚ) := by
    exact_mod_cast Int.toNat_of_nonneg hfl
  have heq : a - S * ((⌊a / S⌋).toNat : ℚ) = S * Int.fract (a / S) := by
    rw [hcast, Int.fract, mul_sub, mul_comm S (a / S),
      div_mul_cancel₀ a hS.ne']
  rw [heq]
  constructor
  · exact mul_nonneg hS.le (Int.fract_nonneg _)
  · calc S * Int.fract (a / S) < S * 1 :=
        mul_lt_mul_of_pos_left (Int.fract_lt_one _) hS
      _ = S := mul_one S

theorem floor_shift (S x : ℚ) (hS : 0 < S) (n : ℕ) :
    ⌊(x + S * n) / S⌋ = ⌊x / S⌋ + n := by
  rw [add_div]
  have hd : S * (n : ℚ) / S = (n : ℚ) := by
    rw [mul_comm, mul_div_assoc, div_self hS.ne', mul_one]
  rw [hd, Int.floor_add_nat]

theorem runWakes_go (S maxAcc : ℚ) (hS : 0 < S) (hM : 0 ≤ maxAcc) :
    ∀ es : List ℚ, (∀ e ∈ es, 0 ≤ e) → ∀ st : TickState,
      0 ≤ st.accumulator → st.accumulator < S →
      (runWakes S maxAcc hS st es).tickNumber
          = st.tickNumber
            + (⌊(st.accumulator
                  + (es.map fun e => min maxAcc e).sum) / S⌋).toNat
        ∧ 0 ≤ (runWakes S maxAcc hS st es).accumulator
        ∧ (runWakes S maxAcc hS st es).accumulator < S := by
  intro es
  induction es with
  | nil =>
      intro _ st h0 hlt
      refine ⟨?_, h0, hlt⟩
      simp only [runWakes, List.map_nil, List.sum_nil, add_zero]
      have hz : ⌊st.accumulator / S⌋ = 0 := by
        rw [Int.floor_eq_zero_iff]
        exact ⟨div_nonneg h0 hS.le, (div_lt_one hS).mpr hlt⟩
      rw [hz]
      simp
  | cons e es ih =>
      intro hpos st h0 hlt
      have he : 0 ≤ e := hpos e (List.mem_cons_self e es)
      have hc : 0 ≤ min maxAcc e := le_min hM he
      have hacc1 : 0 ≤ st.accumulator + min maxAcc e := by linarith
      have hbatch := tickBatch_go S hS
        ((⌊(st.accumulator + min maxAcc e) / S⌋).toNat)
        (st.accumulator + min maxAcc e) hacc1 rfl
      have hbounds := sub_floor_bounds S (st.accumulator + min maxAcc e)
        hS hacc1
      have hwake : (tickWake false false S maxAcc hS st e).1
          = ⟨st.accumulator + min maxAcc e
                - S * ((⌊(st.accumulator + min maxAcc e) / S⌋).toNat : ℚ),
              st.tickNumber
                + (⌊(st.accumulator + min maxAcc e) / S⌋).toNat⟩ := by
        unfold tickWake
        simp only [Bool.or_self]
        rw [hbatch]
      have hstep : runWakes S maxAcc hS st (e :: es)
          = runWakes S maxAcc hS (tickWake false false S maxAcc hS st e).1 es :=
        rfl
      rw [hstep, hwake]
      have ihres := ih (fun x hx => hpos x (List.mem_cons_of_mem e hx))
        ⟨st.accumulator + min maxAcc e
            - S * ((⌊(st.accumulator + min maxAcc e) / S⌋).toNat : ℚ),
          st.tickNumber + (⌊(st.accumulator + min maxAcc e) / S⌋).toNat⟩
        hbounds.1 hbounds.2
      obtain ⟨iht, ih0, ihlt⟩ := ihres
      refine ⟨?_, ih0, ihlt⟩
      rw [iht]
      simp only [List.map_cons, List.sum_cons]
      have harith : st.accumulator
            + (min maxAcc e + (es.map fun x => min maxAcc x).sum)
          = (st.accumulator + min maxAcc e
              - S * ((⌊(st.accumulator + min maxAcc e) / S⌋).toNat : ℚ)
              + (es.map fun x => min maxAcc x).sum)
            + S * ((⌊(st.accumulator + min maxAcc e) / S⌋).toNat : ℚ) := by
        ring
      rw [harith, floor_shift S _ hS]
      have hT : 0 ≤ (es.map fun x => min maxAcc x).sum := by
        apply List.sum_nonneg
        intro x hx
        rw [List.mem_map] at hx
        obtain ⟨y, hy, rfl⟩ := hx
        exact le_min hM (hpos y (List.mem_cons_of_mem e hy))
      have hfl0 : (0 : ℤ) ≤ ⌊(st.accumulator + min maxAcc e
          - S * ((⌊(st.accumulator + min maxAcc e) / S⌋).toNat : ℚ)
          + (es.map fun x => min maxAcc x).sum) / S⌋ := by
        apply Int.floor_nonneg.mpr
        apply div_nonneg _ hS.le
        linarith [hbounds.1]
      omega

/-- C2: starting the never-stopped, never-disabled tick loop at
accumulator 0 and tickNumber 0 with fixed step S = deltaTimeMs, 0 < S,
after M wakes observing raw elapsed times e_1..e_M (each nonnegative,
and with a nonnegative maxAccumulation, as configured), tickNumber has
increased by exactly the floor of (sum of min(maxAccumulation, e_i))
divided by S. -/
theorem C2_tick_monotonic (S maxAcc : ℚ) (hS : 0 < S) (hM : 0 ≤ maxAcc)
    (es : List ℚ) (he : ∀ e ∈ es, 0 ≤ e) :
    (runWakes S maxAcc hS ⟨0, 0⟩ es).tickNumber
      = (⌊(es.map fun e => min maxAcc e).sum / S⌋).toNat := by
  have h := (runWakes_go S maxAcc hS hM es he ⟨0, 0⟩ le_rfl hS).1
  simpa using h

/-- C2 witness: step 10 ms, maxAccumulation 25 ms, wakes of 7 ms and
30 ms: the second wake is clamped to 25, so the loop runs
floor(32 / 10) = 3 ticks. -/
theorem C2_tick_monotonic_witness :
    (runWakes 10 25 (by norm_num) ⟨0, 0⟩ [7, 30]).tickNumber = 3 := by
  have h := C2_tick_monotonic 10 25 (by norm_num) (by norm_num) [7, 30]
    (by norm_num)
  rw [h]
  norm_num
  decide

/-- C7 counterexample: a wake with the stop flag set, accumulator 0 and
elapsed time 0 performs no tick but still reschedules the loop (the
stop check sits inside the while loop, which is never entered when the
accumulator stays below the step), refuting the claim that a stopped
wake never schedules another wake regardless of the accumulator. -/
theorem C7_stop_counterexample :
    (tickWake true false 10 25 (by norm_num) ⟨0, 0⟩ 0).2 = true := by
  unfold tickWake
  simp only [Bool.or_false]
  rw [tickBatch.eq_def]
  norm_num

/-- C7 amended: once the stop flag is set a wake never runs the
application tick hook and never decrements the accumulator, but the
stop check is inside the while loop: the wake reschedules itself
exactly when the accumulator (after adding the clamped elapsed time)
is still below the step; only a wake that reaches the loop body stops
rescheduling. -/
theorem C7_stop_amended (S maxAcc : ℚ) (hS : 0 < S) (st : TickState)
    (e : ℚ) :
    (tickWake true false S maxAcc hS st e).1.tickNumber = st.tickNumber
    ∧ (tickWake true false S maxAcc hS st e).1.accumulator
        = st.accumulator + min maxAcc e
    ∧ ((tickWake true false S maxAcc hS st e).2 = true
        ↔ st.accumulator + min maxAcc e < S) := by
  unfold tickWake
  simp only [Bool.or_false]
  rw [tickBatch.eq_def]
  by_cases h : S ≤ st.accumulator + min maxAcc e
  · rw [dif_pos h]
    simp [not_lt.mpr h]
  · rw [dif_neg h]
    simp [lt_of_not_le h]

/-- C7 amended witness: stop flag set, step 10, accumulator 12, elapsed
0: no tick runs, the accumulator keeps its clamped total, and the wake
does not reschedule because 12 + min(25, 0) is at least 10. -/
theorem C7_stop_amended_witness :
    (tickWake true false 10 25 (by norm_num) ⟨12, 3⟩ 0).1.tickNumber = 3
    ∧ (tickWake true false 10 25 (by norm_num) ⟨12, 3⟩ 0).1.accumulator
        = 12 + min 25 0
    ∧ ((tickWake true false 10 25 (by norm_num) ⟨12, 3⟩ 0).2 = true
        ↔ (12 : ℚ) + min 25 0 < 10) :=
  C7_stop_amended 10 25 (by norm_num) ⟨12, 3⟩ 0


end Daisy
